import Mathlib

/-!
Verification of the lightkafka partitioned log storage engine.

Shallow embedding of the Go sources:
  * `internal/message` record-batch codec (`DecodeBatch`)
  * `internal/segment/log.go` (`Log`)
  * `internal/segment/index.go` (`Index`)
  * `internal/segment/segment.go` (`Segment.Append`, `Segment.Read`, `Segment.recover`)
  * `internal/partition/partition.go` (`Partition.Append`, `Partition.Read`)
  * the retention pass (modelled from the spec; its implementation is not in the
    sources, only its tests and callers are)

Byte strings are `List Nat` (each entry a byte value), machine integers are
`Int`/`Nat` with explicit two's-complement wrapping where the Go code converts
between widths.  Go runtime panics (out-of-bounds or inverted slices) are
modelled as explicit result constructors, never as Lean partiality.
-/

/-- Big-endian interpretation of a byte list (as Go's `binary.BigEndian`). -/
def beNat (bs : List Nat) : Nat := bs.foldl (fun a b => a * 256 + b % 256) 0

/-- `data[pos]` with Go's zero default out of range (reads are bounds-checked
before use in the embedded code, so the default is never observed there). -/
def byteAt (data : List Nat) (pos : Nat) : Nat := (data.drop pos).headD 0

/-- Go `binary.BigEndian.Uint16(data[pos:pos+2])`. -/
def u16At (data : List Nat) (pos : Nat) : Nat := beNat ((data.drop pos).take 2)

/-- Go `binary.BigEndian.Uint32(data[pos:pos+4])`. -/
def u32At (data : List Nat) (pos : Nat) : Nat := beNat ((data.drop pos).take 4)

/-- Go `binary.BigEndian.Uint64(data[pos:pos+8])`. -/
def u64At (data : List Nat) (pos : Nat) : Nat := beNat ((data.drop pos).take 8)

/-- Reinterpret an unsigned value as Go `int8`. -/
def toInt8 (n : Nat) : Int :=
  if n % 2 ^ 8 < 2 ^ 7 then ((n % 2 ^ 8 : Nat) : Int) else ((n % 2 ^ 8 : Nat) : Int) - 2 ^ 8

/-- Reinterpret an unsigned value as Go `int16`. -/
def toInt16 (n : Nat) : Int :=
  if n % 2 ^ 16 < 2 ^ 15 then ((n % 2 ^ 16 : Nat) : Int) else ((n % 2 ^ 16 : Nat) : Int) - 2 ^ 16

/-- Reinterpret an unsigned value as Go `int32`. -/
def toInt32 (n : Nat) : Int :=
  if n % 2 ^ 32 < 2 ^ 31 then ((n % 2 ^ 32 : Nat) : Int) else ((n % 2 ^ 32 : Nat) : Int) - 2 ^ 32

/-- Reinterpret an unsigned value as Go `int64`. -/
def toInt64 (n : Nat) : Int :=
  if n % 2 ^ 64 < 2 ^ 63 then ((n % 2 ^ 64 : Nat) : Int) else ((n % 2 ^ 64 : Nat) : Int) - 2 ^ 64

/-- Go conversion of a signed value to `uint32` (bit pattern, e.g. `uint32(int32 v)`). -/
def u32bits (v : Int) : Nat := (v.emod (2 ^ 32)).toNat

/-- Go conversion of a signed value to `uint64` (bit pattern, e.g. `uint64(int64 v)`). -/
def u64bits (v : Int) : Nat := (v.emod (2 ^ 64)).toNat

/-- The 8 bytes Go's `binary.BigEndian.PutUint64` writes for value `n`. -/
def u64beBytes (n : Nat) : List Nat :=
  [n / 2 ^ 56 % 256, n / 2 ^ 48 % 256, n / 2 ^ 40 % 256, n / 2 ^ 32 % 256,
   n / 2 ^ 24 % 256, n / 2 ^ 16 % 256, n / 2 ^ 8 % 256, n % 256]

/-- One byte step of CRC-32C (Castagnoli, reflected polynomial `0x82F63B78`),
as Go's `crc32.Checksum` with `crc32.MakeTable(crc32.Castagnoli)` computes it. -/
def crc32cStep (crc b : Nat) : Nat :=
  let c0 := crc ^^^ (b % 256)
  let f := fun c => if c % 2 = 1 then (c / 2) ^^^ 0x82F63B78 else c / 2
  f (f (f (f (f (f (f (f c0)))))))

/-- CRC-32C of a byte string (Go `crc32.Checksum(data, crcTable)` with the
Castagnoli table). -/
def crc32c (data : List Nat) : Nat :=
  (data.foldl crc32cStep 0xFFFFFFFF) ^^^ 0xFFFFFFFF

/-! ## Record batch codec (`internal/message`, `DecodeBatch`) -/

/-- Decode error kinds of `DecodeBatch`. -/
inductive DecodeErr where
  | insufficientData
  | invalidMagic
  | crcMismatch
deriving DecidableEq, Repr

/-- `BatchHeader`: the fixed 61-byte header of a Kafka v2 record batch. -/
structure BatchHeader where
  baseOffset           : Int
  batchLength          : Int
  partitionLeaderEpoch : Int
  magic                : Int
  crc                  : Nat
  attributes           : Int
  lastOffsetDelta      : Int
  baseTimestamp        : Int
  maxTimestamp         : Int
  producerId           : Int
  producerEpoch        : Int
  baseSequence         : Int
  recordsCount         : Int
deriving DecidableEq, Repr

/-- `RecordBatch`: parsed header plus the zero-copy payload slice. -/
structure RecordBatch where
  header  : BatchHeader
  payload : List Nat
deriving DecidableEq, Repr

/-- Result of `DecodeBatch`.  `panik` is the Go runtime panic raised by the
slice expression `data[61:payloadEnd]` when `payloadEnd < 61` (the function
has already returned on the other out-of-bounds combinations). -/
inductive DecodeResult where
  | ok (b : RecordBatch)
  | error (e : DecodeErr)
  | panik
deriving DecidableEq, Repr

/-- The header fields `DecodeBatch` parses out of `data` (in the successful
case), each read at its fixed byte position with the width conversion the Go
code applies. -/
def parsedHeader (data : List Nat) : BatchHeader :=
  { baseOffset := toInt64 (u64At data 0)
    batchLength := toInt32 (u32At data 8)
    partitionLeaderEpoch := toInt32 (u32At data 12)
    magic := toInt8 (byteAt data 16)
    crc := u32At data 17
    attributes := toInt16 (u16At data 21)
    lastOffsetDelta := toInt32 (u32At data 23)
    baseTimestamp := toInt64 (u64At data 27)
    maxTimestamp := toInt64 (u64At data 35)
    producerId := toInt64 (u64At data 43)
    producerEpoch := toInt16 (u16At data 51)
    baseSequence := toInt32 (u32At data 53)
    recordsCount := toInt32 (u32At data 57) }

/-- The `RecordBatch` value `DecodeBatch` returns on success: the parsed
header and the zero-copy payload slice `data[61 : 12+BatchLength]`. -/
def parsedBatch (data : List Nat) : RecordBatch :=
  { header := parsedHeader data
    payload := (data.take (12 + toInt32 (u32At data 8)).toNat).drop 61 }

/-- `DecodeBatch` (src/unnamed/part_009 lines 51-94).  Checks, in source
order: `len(data) < 61`; `int64(len(data)) < int64(BatchLength)+12`;
`Magic != 2`; CRC-32C over `data[21:]` (to the end of the slice) against the
stored CRC; then takes the payload slice `data[61:12+BatchLength]`, which
panics when `12+BatchLength < 61`. -/
def decodeBatch (data : List Nat) : DecodeResult :=
  if data.length < 61 then .error .insufficientData
  else if (data.length : Int) < toInt32 (u32At data 8) + 12 then .error .insufficientData
  else if toInt8 (byteAt data 16) ≠ 2 then .error .invalidMagic
  else if crc32c (data.drop 21) ≠ u32At data 17 then .error .crcMismatch
  else if (12 + toInt32 (u32At data 8) : Int) < 61 then .panik
  else .ok (parsedBatch data)

/-! ## Log file (`internal/segment/log.go`) -/

/-- `Log`: the mmapped byte region (`data`, fixed length = mapped length)
plus the logical size (`size`, valid byte count). -/
structure Log where
  data : List Nat
  size : Nat
deriving DecidableEq, Repr

/-- Result of `Log.Append`: success carries `(n, pos)`, otherwise `ErrSegmentFull`. -/
inductive LogAppendOut where
  | ok (n pos : Nat)
  | full
deriving DecidableEq, Repr

/-- `Log.Append` (log.go lines 65-79): fails with `ErrSegmentFull` when
`size + len(b) > len(data)`, otherwise copies `b` at `size` and advances
the logical size, returning the pre-copy position.  The state is returned
unchanged on failure because the check precedes every mutation. -/
def logAppend (l : Log) (b : List Nat) : LogAppendOut × Log :=
  if l.size + b.length > l.data.length then (.full, l)
  else
    (.ok b.length l.size,
      { l with
          data := l.data.take l.size ++ b ++ l.data.drop (l.size + b.length)
          size := l.size + b.length })

/-- Result of `Log.ReadRaw`.  Go returns `(nil, nil)` when
`pos + size > l.size` (the `nilSlice` case; the error is always `nil`), and
the slice expression `l.data[pos : pos+size]` panics for negative `size`. -/
inductive RawRead where
  | bytes (bs : List Nat)
  | nilSlice
  | panik
deriving DecidableEq, Repr

/-- `Log.ReadRaw` (log.go lines 132-140). -/
def readRaw (l : Log) (pos : Nat) (n : Int) : RawRead :=
  if (pos : Int) + n > (l.size : Int) then .nilSlice
  else if n < 0 then .panik
  else .bytes ((l.data.drop pos).take n.toNat)

/-- Result of a read: Go `([]byte, error)` with its distinguishable outcomes.
`oknil` is `(nil, nil)`, `oor` is `ErrOffsetOutOfRange`; `panik` is a runtime
panic and `hang` a non-terminating loop (reachable only from byte patterns a
recovered log never contains); `cacheDelegate` marks the partition read path
that hands over to a cache-loaded cold segment, whose on-disk state is not
part of the state carried here. -/
inductive ReadOut where
  | ok (bs : List Nat)
  | oknil
  | oor
  | panik
  | hang
  | cacheDelegate (base : Int)
deriving DecidableEq, Repr

/-- Loop body of `Log.ReadAt` (log.go lines 90-122), accumulating whole
batches from `pos`.  `fuel` bounds the iteration count; the Go loop can fail
to terminate when a stored `BatchLength` makes `currentBatchSize ≤ 0`, which
`fuel` exhaustion reports as `hang`. -/
def logReadAtLoop (l : Log) (startPos : Nat) : Nat → Int → Int → Int → ReadOut
  | 0, _, _, _ => .hang
  | fuel + 1, currentPos, totalBytes, maxBytes =>
    if currentPos < (l.size : Int) then
      if (l.size : Int) - currentPos < 12 then
        finish totalBytes
      else
        let batchLen := toInt32 (u32At l.data (currentPos.toNat + 8))
        let currentBatchSize := 12 + batchLen
        if currentPos + currentBatchSize > (l.size : Int) then finish totalBytes
        else if totalBytes + currentBatchSize > maxBytes then
          if totalBytes = 0 then finish currentBatchSize else finish totalBytes
        else
          logReadAtLoop l startPos fuel (currentPos + currentBatchSize)
            (totalBytes + currentBatchSize) maxBytes
    else finish totalBytes
where
  /-- After the loop: `nil, nil` when nothing accumulated, else the slice
  `l.data[pos : pos+totalBytes]`, which panics on a negative total. -/
  finish (totalBytes : Int) : ReadOut :=
    if totalBytes = 0 then .oknil
    else if totalBytes < 0 then .panik
    else .ok ((l.data.drop startPos).take totalBytes.toNat)

/-- `Log.ReadAt` (log.go lines 82-129). -/
def logReadAt (l : Log) (pos : Nat) (maxBytes : Int) : ReadOut :=
  if (pos : Int) ≥ (l.size : Int) then .oor
  else logReadAtLoop l pos (l.size + 1) (pos : Int) 0 maxBytes

/-! ## Index file (`internal/segment/index.go`) -/

/-- `Index`: the mapped capacity in bytes and the entries in `[0, size)`,
each an 8-byte big-endian `(uint32 relOffset, uint32 position)` pair. -/
structure Index where
  cap : Nat
  entries : List (Nat × Nat)
deriving DecidableEq, Repr

/-- `Index.Write` (index.go lines 51-63): appends the pair, or fails
(`io.EOF`, the `IndexFull` condition) when the mapped region is exhausted.
`off` and `pos` arrive as Go `int32` values and are stored as their `uint32`
bit patterns. -/
def indexWrite (i : Index) (off pos : Int) : Except Unit Index :=
  if 8 * i.entries.length + 8 > i.cap then .error ()
  else .ok { i with entries := i.entries ++ [(u32bits off, u32bits pos)] }

/-- `Index.LastEntry` (index.go lines 106-118): `(0, 0)` on an empty index,
else the last stored pair, read back as `int32` values. -/
def indexLastEntry (i : Index) : Int × Int :=
  match i.entries.getLast? with
  | none => (0, 0)
  | some (o, p) => (toInt32 o, toInt32 p)

/-- Binary-search loop of `Index.Lookup` (index.go lines 74-91).  `fuel`
bounds the iterations (the interval shrinks every step, so
`entries.length + 1` suffices; exhaustion returns the accumulator, an
unreachable branch). -/
def indexLookupLoop (entries : List (Nat × Nat)) (relOff : Int) :
    Nat → Int → Int → Int → Int
  | 0, _, _, outPos => outPos
  | fuel + 1, low, high, outPos =>
    if low ≤ high then
      let mid := (low + high) / 2
      let e := entries.getD mid.toNat (0, 0)
      let midOff := toInt32 e.1
      let midPos := toInt32 e.2
      if midOff ≤ relOff then indexLookupLoop entries relOff fuel (mid + 1) high midPos
      else indexLookupLoop entries relOff fuel low (mid - 1) outPos
    else outPos

/-- `Index.Lookup` (index.go lines 66-97): largest stored entry with
`relOff ≤ target`, returning its position; 0 when the index is empty or all
entries exceed the target. -/
def indexLookup (i : Index) (relOff : Int) : Int :=
  if i.entries.length = 0 then 0
  else
    let outPos := indexLookupLoop i.entries relOff (i.entries.length + 1) 0
      ((i.entries.length : Int) - 1) (-1)
    if outPos = -1 then 0 else outPos

/-! ## Segment (`internal/segment/segment.go`) -/

/-- Segment configuration (`segment.Config` as used by segment.go and
cmd/broker/main.go). -/
structure Config where
  segmentMaxBytes : Int
  indexMaxBytes : Int
  indexIntervalBytes : Int
deriving DecidableEq, Repr

/-- `Segment`: base offset, next offset, its log and index, and the config. -/
structure Segment where
  baseOffset : Int
  nextOffset : Int
  log : Log
  index : Index
  cfg : Config
deriving DecidableEq, Repr

/-- Errors surfaced by `Segment.Append`. -/
inductive SegErr where
  | decode (e : DecodeErr)
  | segmentFull
  | createFail
  | invalidBatchLength
deriving DecidableEq, Repr

/-- Result of an append: assigned offset, error, or Go runtime panic. -/
inductive AppendOut where
  | ok (off : Int)
  | err (e : SegErr)
  | panik
deriving DecidableEq, Repr

/-- `Segment.Append` (segment.go lines 51-78): decode (CRC-verified), then
`Log.Append` (propagating `ErrSegmentFull` unchanged), then the sparse-index
decision — only when `IndexIntervalBytes > 0`: index if this was the first
batch (`log.Size() == n`) or the interval was reached, swallowing index-write
failure — then snapshot and advance `NextOffset` by the batch's
`RecordsCount`. -/
def segmentAppend (s : Segment) (batchBytes : List Nat) : AppendOut × Segment :=
  match decodeBatch batchBytes with
  | .panik => (.panik, s)
  | .error e => (.err (.decode e), s)
  | .ok batch =>
    match logAppend s.log batchBytes with
    | (.full, _) => (.err .segmentFull, s)
    | (.ok n pos, log') =>
      let s1 : Segment :=
        if n > 0 ∧ s.cfg.indexIntervalBytes > 0 then
          let lastPos := (indexLastEntry s.index).2
          if log'.size = n ∨ (pos : Int) - lastPos ≥ s.cfg.indexIntervalBytes then
            let relOffset := batch.header.baseOffset - s.baseOffset
            match indexWrite s.index relOffset (pos : Int) with
            | .ok idx' => { s with log := log', index := idx' }
            | .error _ => { s with log := log' }
          else { s with log := log' }
        else { s with log := log' }
      (.ok s.nextOffset, { s1 with nextOffset := s.nextOffset + batch.header.recordsCount })

/-- Scan state of `Segment.recover`'s log-scanning loop. -/
structure ScanState where
  pos : Nat
  lastIndexedPos : Int
  lastNextOffset : Int
  index : Index
deriving DecidableEq, Repr

/-- Result of recovery / segment creation: `.fail` covers both an error
return (an index write failing during the rebuild is propagated by
`recover`, so `NewSegment` fails) and a Go runtime panic (`ReadRaw` with a
negative length, possible when garbage bytes at `pos+8` decode to
`BatchLength < -12`). -/
inductive RecOut where
  | ok (s : Segment)
  | fail
deriving DecidableEq, Repr

/-- The log-scanning loop of `Segment.recover` (segment.go lines 166-214).
Reads the 12-byte prefix (a nil result has length < 12 and breaks), stops on
`BatchLength == 0` (zero-filled pre-allocated tail), reads the whole batch
(`ReadRaw`'s error is always nil: a nil slice reaches `DecodeBatch`, which
rejects it, ending the scan), stops on any decode failure, otherwise writes
a sparse index entry when the threshold is reached and advances.  `fuel` only
bounds the recursion: every non-terminal step advances `pos` by at least 61,
so `log.data.length + 1` iterations are never exhausted. -/
def recoverLoop (cfg : Config) (base : Int) (log : Log) : Nat → ScanState → Option ScanState
  | 0, _ => none
  | fuel + 1, st =>
    if st.pos < log.data.length then
      match readRaw log st.pos 12 with
      | .panik => none
      | .nilSlice => some st
      | .bytes headerBuf =>
        if headerBuf.length < 12 then some st
        -- batchLen := toInt32 (beNat ((headerBuf.drop 8).take 4)), the
        -- `BatchLength` of the 12-byte prefix; 0 means zero padding
        else if toInt32 (beNat ((headerBuf.drop 8).take 4)) = 0 then some st
        else
          -- totalBatchSize := 12 + batchLen
          match readRaw log st.pos (12 + toInt32 (beNat ((headerBuf.drop 8).take 4))) with
          | .panik => none
          | .nilSlice =>
            -- batchData is nil with a nil error; DecodeBatch(nil) returns
            -- ErrInsufficientData, ending the scan.
            some st
          | .bytes batchData =>
            match decodeBatch batchData with
            | .panik => none
            | .error _ => some st
            | .ok batch =>
              if cfg.indexIntervalBytes > 0 ∧
                  (st.lastIndexedPos = -1 ∨
                    (st.pos : Int) - st.lastIndexedPos ≥ cfg.indexIntervalBytes) then
                -- `relOffset := int32(batch.BaseOffset - s.BaseOffset)`; the
                -- index stores its uint32 bit pattern, which the int32
                -- truncation does not change.
                match indexWrite st.index (batch.header.baseOffset - base) ((st.pos : Nat) : Int) with
                | .error _ => none
                | .ok idx' =>
                  recoverLoop cfg base log fuel
                    { pos := st.pos + (12 + toInt32 (beNat ((headerBuf.drop 8).take 4))).toNat
                      lastIndexedPos := (st.pos : Int)
                      lastNextOffset := batch.header.baseOffset + batch.header.recordsCount
                      index := idx' }
              else
                recoverLoop cfg base log fuel
                  { pos := st.pos + (12 + toInt32 (beNat ((headerBuf.drop 8).take 4))).toNat
                    lastIndexedPos := st.lastIndexedPos
                    lastNextOffset := batch.header.baseOffset + batch.header.recordsCount
                    index := st.index }
    else some st

/-- `Segment.recover` (segment.go lines 134-230).  Sets the logical size to
the mapped length, sanity-checks the index via `LastEntry` (valid iff the
last position does not exceed the size; `LastEntry` never errors), picks the
scan start (the in-memory index is freshly opened with size 0 whenever
`recover` runs, so in every reachable call the scan starts at 0 after
`Truncate(0)`), runs the scan loop, then truncates the logical size to the
end of valid data and installs the reconstructed `NextOffset`. -/
def recover (base : Int) (cfg : Config) (log0 : Log) (index0 : Index) : RecOut :=
  let log : Log := { log0 with size := log0.data.length }
  let last := indexLastEntry index0
  let lastIdxOff := last.1
  let lastIdxPos := last.2
  let validIndex := ¬ (lastIdxPos > (log.size : Int))
  let init : ScanState :=
    if validIndex ∧ lastIdxPos > 0 then
      { pos := lastIdxPos.toNat
        lastIndexedPos := lastIdxPos
        lastNextOffset := base + lastIdxOff
        index := index0 }
    else
      -- `s.index.Truncate(0)` (which cannot fail for size 0).
      { pos := 0
        lastIndexedPos := -1
        lastNextOffset := base
        index := { index0 with entries := [] } }
  match recoverLoop cfg base log (log.data.length + 1) init with
  | none => .fail
  | some st =>
    .ok
      { baseOffset := base
        nextOffset := st.lastNextOffset
        log := { log with size := st.pos }
        index := st.index
        cfg := cfg }

/-- `NewLog` on a file whose current content is `disk`: pre-allocates
(zero-extends) to `maxBytes` when shorter and maps the first `maxBytes`
bytes; the logical size starts at 0. -/
def logFromDisk (maxBytes : Int) (disk : List Nat) : Log :=
  { data := disk.take maxBytes.toNat ++
      List.replicate (maxBytes.toNat - disk.length) 0
    size := 0 }

/-- `NewIndex`: the mapped region is `maxBytes` and the in-memory size starts
at 0, so whatever the index file held on disk, the freshly opened index has
no visible entries. -/
def freshIndex (maxBytes : Int) : Index := { cap := maxBytes.toNat, entries := [] }

/-- `NewSegment` (segment.go lines 22-49) on a directory whose log file for
this base offset currently holds `disk` (the on-disk index content is
irrelevant: the freshly opened index has size 0): open log and index, then
run recovery. -/
def newSegmentFromDisk (base : Int) (cfg : Config) (disk : List Nat) : RecOut :=
  recover base cfg (logFromDisk cfg.segmentMaxBytes disk) (freshIndex cfg.indexMaxBytes)

/-- `NewSegment` for a base offset whose files do not exist yet (the roll
path and first-time partition creation): both files are created empty and
pre-allocated with zeros. -/
def newSegmentFresh (base : Int) (cfg : Config) : RecOut :=
  newSegmentFromDisk base cfg []

/-- The linear-scan loop of `Segment.Read` (segment.go lines 100-123).
`ReadRaw(currentPos, 61)`'s error is always nil, so when it returns a nil
slice the subsequent `headerBytes[0:8]` panics; a stored batch length of
`-12` makes the loop advance by zero, which Go never exits (`hang` on fuel
exhaustion).  Returns the found position, or `none` when the loop ends
without finding the target. -/
inductive ScanFound where
  | found (pos : Nat)
  | notFound
  | panik
  | hang
deriving DecidableEq, Repr

/-- See `ScanFound`. -/
def segmentReadScan (s : Segment) (targetOffset : Int) : Nat → Nat → ScanFound
  | 0, _ => .hang
  | fuel + 1, currentPos =>
    if currentPos < s.log.size then
      match readRaw s.log currentPos 61 with
      | .panik => .panik
      | .nilSlice => .panik
      | .bytes headerBytes =>
        if headerBytes.length < 8 then .panik
        else
          let baseOffset := toInt64 (u64At headerBytes 0)
          let batchLen := toInt32 (u32At headerBytes 8)
          let lastOffsetDelta := toInt32 (u32At headerBytes 23)
          let totalSize : Int := 12 + batchLen
          let lastOffset := baseOffset + lastOffsetDelta
          if lastOffset < targetOffset then
            if totalSize < 0 then .hang
            else segmentReadScan s targetOffset fuel (currentPos + totalSize.toNat)
          else .found currentPos
    else .notFound

/-- `Segment.Read` (segment.go lines 81-131): range check against
`[BaseOffset, NextOffset)`, index lookup, linear scan, then `Log.ReadAt`
from the found position. -/
def segmentRead (s : Segment) (targetOffset : Int) (maxBytes : Int) : ReadOut :=
  if targetOffset < s.baseOffset ∨ targetOffset ≥ s.nextOffset then .oor
  else
    let rel := targetOffset - s.baseOffset
    let startPos := indexLookup s.index rel
    match segmentReadScan s targetOffset (s.log.size + 1) startPos.toNat with
    | .panik => .panik
    | .hang => .hang
    | .notFound => .oor
    | .found currentPos => logReadAt s.log currentPos maxBytes

/-! ## Partition (`internal/partition/partition.go`) -/

/-- `Partition`: the base-offset metadata list and the active segment (the
LRU cache and directory are external resources; the cold read path is
modelled as an explicit delegation marker). -/
structure Partition where
  segments : List Int
  active : Segment
  cfg : Config
deriving DecidableEq, Repr

/-- `binary.BigEndian.PutUint64(batchBytes[0:8], uint64(currentOffset))`:
overwrite the first 8 bytes in place. -/
def putU64 (data : List Nat) (v : Int) : List Nat :=
  u64beBytes (u64bits v) ++ data.drop 8

/-- `Partition.Append` (partition.go lines 128-167).  Reads
`currentOffset = active.NextOffset`, requires `len(batchBytes) ≥ 8` and
rewrites the first 8 bytes to the assigned offset, then appends to the
active segment.  On `ErrSegmentFull` it re-reads `NextOffset` (unchanged by
the failed append), closes the old active segment, creates a new segment at
that offset, makes it active and retries once.  The new base offset is not
added to `segments`. -/
def partitionAppend (p : Partition) (batchBytes : List Nat) : AppendOut × Partition :=
  let currentOffset := p.active.nextOffset
  if batchBytes.length ≥ 8 then
    let batchBytes := putU64 batchBytes currentOffset
    match segmentAppend p.active batchBytes with
    | (.err .segmentFull, aFailed) =>
      let nextOffset := aFailed.nextOffset
      -- `p.activeSegment.Close()` truncates the rolled file on disk; the
      -- partition state keeps only the new active segment.
      match newSegmentFresh nextOffset p.cfg with
      | .fail => (.err .createFail, p)
      | .ok newSeg =>
        let r := segmentAppend newSeg batchBytes
        (r.1, { p with active := r.2 })
    | (r, a') => (r, { p with active := a' })
  else (.err .invalidBatchLength, p)

/-- `Partition.Read` (partition.go lines 170-217).  Empty partition or a
target below the first stored base offset is `ErrOffsetOutOfRange`; any
target at or beyond the active segment's `NextOffset` returns `(nil, nil)`
(the EOF case); a target inside the active segment is read there directly;
otherwise the request is delegated to the cache-loaded segment whose base
offset is the largest one `≤ offset` (`sort.Search` over the ascending
list, clamped at 0). -/
def partitionRead (p : Partition) (offset : Int) (maxBytes : Int) : ReadOut :=
  if p.segments.length = 0 then .oor
  else if offset < p.segments.headD 0 then .oor
  else if offset ≥ p.active.nextOffset then .oknil
  else if offset ≥ p.active.baseOffset then segmentRead p.active offset maxBytes
  else
    let idx : Int := (p.segments.findIdx (fun b => decide (b > offset)) : Int) - 1
    let idx := if idx < 0 then 0 else idx
    .cacheDelegate (p.segments.getD idx.toNat 0)

/-- `NewPartition` (partition.go lines 40-90) on an empty directory: creates
the segment with base offset 0, records it in the metadata list and makes it
active.  `none` when segment creation fails (it cannot for fresh files; see
`newSegmentFresh_eq`). -/
def freshPartition (cfg : Config) : Option Partition :=
  match newSegmentFresh 0 cfg with
  | .ok s => some { segments := [0], active := s, cfg := cfg }
  | .fail => none

/-- A sequence of `Partition.Append` calls, collecting every result. -/
def appendMany (p : Partition) : List (List Nat) → List AppendOut × Partition
  | [] => ([], p)
  | b :: bs =>
    let r := partitionAppend p b
    let rest := appendMany r.2 bs
    (r.1 :: rest.1, rest.2)

/-! ## Specification-side definitions -/

/-- The `RecordsCount` field (bytes 57..61) of a batch byte string, as the
decoder reads it. -/
def recordsCountOf (b : List Nat) : Int := toInt32 (u32At b 57)

/-- The offset sequence the spec prescribes: starting at `n`, each batch is
assigned the running offset, which then advances by that batch's
`RecordsCount`. -/
def offsetsSpec (n : Int) : List (List Nat) → List Int
  | [] => []
  | b :: bs => n :: offsetsSpec (n + recordsCountOf b) bs

/-- `ValidBatchSeq l`: `l` is a contiguous concatenation of batches, each of
which `decodeBatch` accepts (well-formed, magic 2, CRC-valid) and each of
which occupies exactly its declared on-disk size `12 + BatchLength`. -/
inductive ValidBatchSeq : List Nat → Prop
  | nil : ValidBatchSeq []
  | cons (B rest : List Nat) (b : RecordBatch) :
      decodeBatch B = .ok b →
      B.length = (12 + toInt32 (u32At B 8)).toNat →
      ValidBatchSeq rest →
      ValidBatchSeq (B ++ rest)

/-! ## Retention (modelled from the spec)

The retention pass itself (`Partition.DeleteOldSegments` and its three
phases) is not among the sources; only its caller
(`RetentionCleaner.cleanupAll`, retention.go lines 51-60) and its tests are.
The definitions below are therefore modelled from the spec, §4.5.3. -/

/-- Modelled from the spec: the per-segment attributes the retention phases
consult (base offset, next offset, largest timestamp, on-disk size). -/
structure RSeg where
  base : Int
  next : Int
  largestTs : Int
  sizeBytes : Int
deriving DecidableEq, Repr

/-- Modelled from the spec: retention configuration. -/
structure RetCfg where
  retentionMs : Int
  retentionBytes : Int
deriving DecidableEq, Repr

/-- Modelled from the spec: deleting the front segment advances
`log_start_offset` to the new front's base offset.  Only called when a
successor exists (the candidate is never the active segment, which is the
last of the ascending list). -/
def rAdvance (rest : List RSeg) (logStart : Int) : Int :=
  match rest.head? with
  | some r => r.base
  | none => logStart

/-- Modelled from the spec, §4.5.3 phase 1 (time-based, `RetentionMs > 0`):
delete from the front while `now - largest_timestamp > RetentionMs`, never
deleting the active (= last) segment.  Returns deletions, remaining list and
the advanced `log_start_offset`. -/
def phaseTime (retMs now : Int) : List RSeg → Int → Nat × List RSeg × Int
  | s :: rest@(_ :: _), logStart =>
    if now - s.largestTs > retMs then
      let r := phaseTime retMs now rest (rAdvance rest logStart)
      (r.1 + 1, r.2)
    else (0, s :: rest, logStart)
  | l, logStart => (0, l, logStart)

/-- Modelled from the spec, §4.5.3 phase 2 (log-start-offset, always):
delete from the front while `segments[0].next_offset ≤ log_start_offset` and
the front is not the active segment. -/
def phaseLogStart : List RSeg → Int → Nat × List RSeg × Int
  | s :: rest@(_ :: _), logStart =>
    if s.next ≤ logStart then
      let r := phaseLogStart rest (rAdvance rest logStart)
      (r.1 + 1, r.2)
    else (0, s :: rest, logStart)
  | l, logStart => (0, l, logStart)

/-- Modelled from the spec, §4.5.3 phase 3 (size-based, `RetentionBytes ≥ 0`):
while the total size exceeds `RetentionBytes` and the front is not the
active segment, delete the front and subtract its size. -/
def phaseSize (retBytes : Int) : List RSeg → Int → Int → Nat × List RSeg × Int
  | s :: rest@(_ :: _), logStart, total =>
    if total > retBytes then
      let r := phaseSize retBytes rest (rAdvance rest logStart) (total - s.sizeBytes)
      (r.1 + 1, r.2)
    else (0, s :: rest, logStart)
  | l, logStart, _ => (0, l, logStart)

/-- Modelled from the spec, §4.5.3: `Partition.DeleteOldSegments`, the
retention pass the cleaner invokes on each registered partition — time
phase (if `RetentionMs > 0`), then log-start-offset phase, then size phase
(if `RetentionBytes ≥ 0`), each deleting only non-active front segments.
Returns the total deletion count, the remaining segments and the final
`log_start_offset`. -/
def deleteOldSegments (cfg : RetCfg) (now : Int) (segs : List RSeg) (logStart : Int) :
    Nat × List RSeg × Int :=
  let r1 := if cfg.retentionMs > 0 then phaseTime cfg.retentionMs now segs logStart
    else (0, segs, logStart)
  let r2 := phaseLogStart r1.2.1 r1.2.2
  let r3 :=
    if cfg.retentionBytes ≥ 0 then
      phaseSize cfg.retentionBytes r2.2.1 r2.2.2 ((r2.2.1.map RSeg.sizeBytes).sum)
    else (0, r2.2.1, r2.2.2)
  (r1.1 + r2.1 + r3.1, r3.2)

/-! ## Concrete scenario values -/

/-- A minimal valid batch: `BaseOffset 0`, `BatchLength 49` (empty payload),
magic 2, `LastOffsetDelta 0`, all timestamps and producer fields 0,
`RecordsCount 1`, with its correct CRC-32C `2872325342` over bytes 21..61. -/
def cBatch : List Nat :=
  [0,0,0,0,0,0,0,0, 0,0,0,49, 0,0,0,0, 2, 171,52,52,222,
   0,0, 0,0,0,0, 0,0,0,0,0,0,0,0, 0,0,0,0,0,0,0,0, 0,0,0,0,0,0,0,0,
   0,0, 0,0,0,0, 0,0,0,1]

/-- The header `decodeBatch` parses out of `cBatch`. -/
def cHeader : BatchHeader :=
  { baseOffset := 0, batchLength := 49, partitionLeaderEpoch := 0, magic := 2,
    crc := 2872325342, attributes := 0, lastOffsetDelta := 0, baseTimestamp := 0,
    maxTimestamp := 0, producerId := 0, producerEpoch := 0, baseSequence := 0,
    recordsCount := 1 }

/-- A 61-byte input with `BatchLength 0`, magic 2, and the CRC field set to
the correct CRC-32C (`1499445213`) of its bytes 21..61 (forty zero bytes):
every validation in `DecodeBatch` passes, and the payload slice
`data[61:12]` is inverted. -/
def cShortBatch : List Nat :=
  [0,0,0,0,0,0,0,0, 0,0,0,0, 0,0,0,0, 2, 89,95,183,221] ++ List.replicate 40 0

/-- Config used by the concrete roll scenario: the log holds exactly one
61-byte batch. -/
def cfg61 : Config :=
  { segmentMaxBytes := 61, indexMaxBytes := 16, indexIntervalBytes := 4096 }

/-- The fresh partition of the roll scenario. -/
def part0 : Partition :=
  { segments := [0]
    active :=
      { baseOffset := 0, nextOffset := 0
        log := { data := List.replicate 61 0, size := 0 }
        index := { cap := 16, entries := [] }
        cfg := cfg61 }
    cfg := cfg61 }

/-- `part0` after one successful append of `cBatch` (next offset 1, log
full). -/
def part1 : Partition := (partitionAppend part0 cBatch).2

/-- Config with `IndexIntervalBytes = 0` (interval indexing disabled). -/
def cfgNoIdx : Config :=
  { segmentMaxBytes := 200, indexMaxBytes := 16, indexIntervalBytes := 0 }

/-- A fresh segment under `cfgNoIdx`. -/
def segNoIdx : Segment :=
  { baseOffset := 0, nextOffset := 0
    log := { data := List.replicate 200 0, size := 0 }
    index := { cap := 16, entries := [] }
    cfg := cfgNoIdx }

/-- Config of the recovery scenario. -/
def cfgRec : Config :=
  { segmentMaxBytes := 128, indexMaxBytes := 16, indexIntervalBytes := 0 }

/-- On-disk log content of the recovery scenario: one valid batch followed
by three garbage bytes (a torn tail). -/
def cRecDisk : List Nat := cBatch ++ [1, 2, 3]

/-- The segment recovery reconstructs from `cRecDisk`: the garbage tail is
truncated away (logical size 61) and `NextOffset` is 1. -/
def cRecSeg : Segment :=
  { baseOffset := 0, nextOffset := 1
    log := { data := cRecDisk.take 128 ++ List.replicate (128 - cRecDisk.length) 0
             size := 61 }
    index := { cap := 16, entries := [] }
    cfg := cfgRec }

/-- A concrete retention scenario: two closed segments plus the active one. -/
def cRSegs : List RSeg :=
  [{ base := 0, next := 10, largestTs := 100, sizeBytes := 200 },
   { base := 10, next := 20, largestTs := 200, sizeBytes := 200 },
   { base := 20, next := 25, largestTs := 900, sizeBytes := 100 }]


/-! ## Helper lemmas -/

lemma beNat_eight (a b c d e f g h : Nat) :
    beNat [a, b, c, d, e, f, g, h] =
      ((((((a % 256 * 256 + b % 256) * 256 + c % 256) * 256 + d % 256) * 256 +
        e % 256) * 256 + f % 256) * 256 + g % 256) * 256 + h % 256 := by
  simp [beNat]

lemma mod_mod_256 (x : Nat) : x % 256 % 256 = x % 256 := Nat.mod_mod_of_dvd _ dvd_rfl

lemma peel (n k : Nat) : n % (2 ^ (k + 8)) = n / 2 ^ k % 256 * 2 ^ k + n % 2 ^ k := by
  rw [pow_add, show ((2 : Nat) ^ 8) = 256 from rfl, Nat.mod_mul]
  ring

lemma beNat_u64beBytes (n : Nat) : beNat (u64beBytes n) = n % 2 ^ 64 := by
  rw [u64beBytes, beNat_eight]
  simp only [mod_mod_256]
  rw [show n % 2 ^ 64 = n / 2 ^ 56 % 256 * 2 ^ 56 + n % 2 ^ 56 from peel n 56,
    show n % 2 ^ 56 = n / 2 ^ 48 % 256 * 2 ^ 48 + n % 2 ^ 48 from peel n 48,
    show n % 2 ^ 48 = n / 2 ^ 40 % 256 * 2 ^ 40 + n % 2 ^ 40 from peel n 40,
    show n % 2 ^ 40 = n / 2 ^ 32 % 256 * 2 ^ 32 + n % 2 ^ 32 from peel n 32,
    show n % 2 ^ 32 = n / 2 ^ 24 % 256 * 2 ^ 24 + n % 2 ^ 24 from peel n 24,
    show n % 2 ^ 24 = n / 2 ^ 16 % 256 * 2 ^ 16 + n % 2 ^ 16 from peel n 16,
    show n % 2 ^ 16 = n / 2 ^ 8 % 256 * 2 ^ 8 + n % 2 ^ 8 from peel n 8,
    show n % 2 ^ 8 = n % 256 from rfl]
  ring

/-- Complete characterization of a successful decode: the two length guards,
the magic check, the CRC check over `data[21:]`, the non-inverted payload
slice, and the value returned. -/
lemma decodeBatch_ok_iff (data : List Nat) (b : RecordBatch) :
    decodeBatch data = .ok b ↔
      (61 ≤ data.length ∧
        toInt32 (u32At data 8) + 12 ≤ (data.length : Int) ∧
        toInt8 (byteAt data 16) = 2 ∧
        crc32c (data.drop 21) = u32At data 17 ∧
        49 ≤ toInt32 (u32At data 8) ∧
        b = parsedBatch data) := by
  constructor
  · intro h
    unfold decodeBatch at h
    split_ifs at h with h1 h2 h3 h4 h5
    cases h
    push_neg at h3 h4
    exact ⟨by omega, by omega, h3, h4, by omega, rfl⟩
  · rintro ⟨h1, h2, h3, h4, h5, rfl⟩
    unfold decodeBatch
    rw [if_neg (by omega), if_neg (by omega), if_neg (by simp [h3]),
      if_neg (by simp [h4]), if_neg (by omega)]

/-- A successful decode fixes the minimum length and the value returned. -/
lemma decodeBatch_ok_elim {data : List Nat} {b : RecordBatch}
    (h : decodeBatch data = .ok b) :
    61 ≤ data.length ∧ b = parsedBatch data := by
  have := (decodeBatch_ok_iff data b).mp h
  exact ⟨this.1, this.2.2.2.2.2⟩

lemma putU64_eq (data : List Nat) (v : Int) :
    putU64 data v = u64beBytes (u64bits v) ++ data.drop 8 := rfl

lemma length_u64beBytes (n : Nat) : (u64beBytes n).length = 8 := rfl

/-- Overwriting the first 8 bytes leaves every suffix from position 8 on
unchanged. -/
lemma putU64_drop {p : Nat} (hp : 8 ≤ p) (data : List Nat) (v : Int) :
    (putU64 data v).drop p = data.drop p := by
  rw [putU64_eq, List.drop_append_eq_append_drop,
    List.drop_eq_nil_of_le (by rw [length_u64beBytes]; omega), List.nil_append,
    length_u64beBytes, List.drop_drop]
  congr 1
  omega

lemma putU64_length (data : List Nat) (v : Int) (h : 8 ≤ data.length) :
    (putU64 data v).length = data.length := by
  rw [putU64_eq, List.length_append, length_u64beBytes, List.length_drop]
  omega

lemma u32At_putU64 {p : Nat} (hp : 8 ≤ p) (data : List Nat) (v : Int) :
    u32At (putU64 data v) p = u32At data p := by
  unfold u32At; rw [putU64_drop hp]

lemma u16At_putU64 {p : Nat} (hp : 8 ≤ p) (data : List Nat) (v : Int) :
    u16At (putU64 data v) p = u16At data p := by
  unfold u16At; rw [putU64_drop hp]

lemma u64At_putU64 {p : Nat} (hp : 8 ≤ p) (data : List Nat) (v : Int) :
    u64At (putU64 data v) p = u64At data p := by
  unfold u64At; rw [putU64_drop hp]

lemma byteAt_putU64 {p : Nat} (hp : 8 ≤ p) (data : List Nat) (v : Int) :
    byteAt (putU64 data v) p = byteAt data p := by
  unfold byteAt; rw [putU64_drop hp]

lemma u64bits_lt (v : Int) : u64bits v < 2 ^ 64 := by
  have h1 : (0 : Int) ≤ v.emod (2 ^ 64) := Int.emod_nonneg v (by norm_num)
  have h2 : v.emod (2 ^ 64) < 2 ^ 64 := Int.emod_lt_of_pos v (by norm_num)
  unfold u64bits
  omega

/-- The rewritten buffer's first 8 bytes read back as the written value's
`uint64` bit pattern. -/
lemma u64At_putU64_zero (data : List Nat) (v : Int) :
    u64At (putU64 data v) 0 = u64bits v := by
  unfold u64At
  rw [putU64_eq, List.drop_zero,
    List.take_append_of_le_length (by rw [length_u64beBytes]),
    show (8 : Nat) = (u64beBytes (u64bits v)).length from (length_u64beBytes _).symm,
    List.take_length, beNat_u64beBytes]
  exact Nat.mod_eq_of_lt (u64bits_lt v)

/-- A successful `Segment.Append` returns the pre-append `NextOffset` and
advances it by the decoded batch's `RecordsCount`; nothing else about the
result is needed for the offset-assignment arguments. -/
lemma segmentAppend_ok {s s' : Segment} {b : List Nat} {o : Int}
    (h : segmentAppend s b = (.ok o, s')) :
    ∃ batch, decodeBatch b = .ok batch ∧ o = s.nextOffset ∧
      s'.nextOffset = s.nextOffset + batch.header.recordsCount := by
  unfold segmentAppend at h
  cases hd : decodeBatch b with
  | panik => rw [hd] at h; exact AppendOut.noConfusion (congrArg Prod.fst h)
  | error e => rw [hd] at h; exact AppendOut.noConfusion (congrArg Prod.fst h)
  | ok batch =>
    rw [hd] at h
    cases hl : logAppend s.log b with
    | mk out log' =>
      rw [hl] at h
      cases out with
      | full => exact AppendOut.noConfusion (congrArg Prod.fst h)
      | ok n pos =>
        have h1 := congrArg Prod.fst h
        have h2 := congrArg Prod.snd h
        simp only [] at h1 h2
        refine ⟨batch, rfl, ?_, ?_⟩
        · have : AppendOut.ok s.nextOffset = AppendOut.ok o := h1
          cases this
          rfl
        · rw [← h2]

/-- A failed `Segment.Append` leaves the segment unchanged: every error
return happens before any state mutation. -/
lemma segmentAppend_err {s s' : Segment} {b : List Nat} {e : SegErr}
    (h : segmentAppend s b = (.err e, s')) : s' = s := by
  unfold segmentAppend at h
  cases hd : decodeBatch b with
  | panik => rw [hd] at h; exact AppendOut.noConfusion (congrArg Prod.fst h)
  | error e2 => rw [hd] at h; exact (congrArg Prod.snd h).symm
  | ok batch =>
    rw [hd] at h
    cases hl : logAppend s.log b with
    | mk out log' =>
      rw [hl] at h
      cases out with
      | full => exact (congrArg Prod.snd h).symm
      | ok n pos => exact AppendOut.noConfusion (congrArg Prod.fst h)

/-- On an all-zero log region the recovery scan stops immediately: either
the region is shorter than a 12-byte prefix, or the prefix is zero bytes and
`BatchLength == 0` ends the scan. -/
lemma recoverLoop_zeros (cfg : Config) (base : Int) (m fuel : Nat) (st : ScanState)
    (hpos : st.pos = 0) :
    recoverLoop cfg base { data := List.replicate m 0, size := m } (fuel + 1) st = some st := by
  rw [recoverLoop, hpos]
  simp only [List.length_replicate]
  by_cases hm : 0 < m
  · rw [if_pos hm]
    by_cases h12 : m < 12
    · have hr : readRaw { data := List.replicate m 0, size := m } 0 12 = .nilSlice := by
        unfold readRaw
        rw [if_pos (show ((0 : Nat) : Int) + 12 > ((m : Nat) : Int) by push_cast; omega)]
      rw [hr]
    · have hr : readRaw { data := List.replicate m 0, size := m } 0 12
          = .bytes (List.replicate 12 0) := by
        unfold readRaw
        rw [if_neg (show ¬ (((0 : Nat) : Int) + 12 > ((m : Nat) : Int)) by push_cast; omega),
          if_neg (by norm_num)]
        rw [List.drop_zero, List.take_replicate]
        have hmin : ((12 : Int).toNat ⊓ m) = 12 := by
          show (12 : Nat) ⊓ m = 12
          omega
        rw [hmin]
      rw [hr]
      have hz : toInt32 (beNat (((List.replicate 12 (0 : Nat)).drop 8).take 4)) = 0 := by decide
      simp only [List.length_replicate, hz]
      norm_num
  · rw [if_neg hm]

/-- Creating a segment with fresh (zero-filled, pre-allocated) files always
succeeds and yields the empty segment: logical size 0, `NextOffset = base`,
no index entries. -/
lemma newSegmentFresh_eq (base : Int) (cfg : Config) :
    newSegmentFresh base cfg = .ok
      { baseOffset := base, nextOffset := base
        log := { data := List.replicate cfg.segmentMaxBytes.toNat 0, size := 0 }
        index := { cap := cfg.indexMaxBytes.toNat, entries := [] }
        cfg := cfg } := by
  unfold newSegmentFresh newSegmentFromDisk recover
  have hlog : logFromDisk cfg.segmentMaxBytes [] =
      { data := List.replicate cfg.segmentMaxBytes.toNat 0, size := 0 } := by
    unfold logFromDisk
    simp
  rw [hlog]
  have hlast : indexLastEntry (freshIndex cfg.indexMaxBytes) = (0, 0) := rfl
  rw [hlast]
  simp only [List.length_replicate]
  rw [if_neg (by norm_num)]
  rw [recoverLoop_zeros cfg base cfg.segmentMaxBytes.toNat _ _ rfl]
  rfl

/-- Rewriting the base offset does not change the `RecordsCount` bytes. -/
lemma recordsCountOf_putU64 (b : List Nat) (v : Int) :
    recordsCountOf (putU64 b v) = recordsCountOf b := by
  unfold recordsCountOf
  rw [u32At_putU64 (by omega)]

/-- A decoded batch's `RecordsCount` is the `int32` read at byte 57. -/
lemma decode_recordsCount {b : List Nat} {batch : RecordBatch}
    (h : decodeBatch b = .ok batch) :
    batch.header.recordsCount = recordsCountOf b := by
  rw [(decodeBatch_ok_elim h).2]
  rfl

/-- The offset-assignment step of `Partition.Append`: a successful append
(with or without a roll) returns the pre-call `active.NextOffset`, and the
post-call `active.NextOffset` advances by exactly the batch's
`RecordsCount`. -/
lemma partitionAppend_ok {p p' : Partition} {b : List Nat} {o : Int}
    (h : partitionAppend p b = (.ok o, p')) :
    o = p.active.nextOffset ∧
      p'.active.nextOffset = p.active.nextOffset + recordsCountOf b := by
  unfold partitionAppend at h
  by_cases hlen : b.length ≥ 8
  · rw [if_pos hlen] at h
    simp only [] at h
    rcases hsa : segmentAppend p.active (putU64 b p.active.nextOffset) with ⟨r, a1⟩
    rw [hsa] at h
    cases r with
    | panik => exact AppendOut.noConfusion (congrArg Prod.fst h)
    | ok o1 =>
      obtain ⟨batch, hdec, ho, hnext⟩ := segmentAppend_ok hsa
      have h1 : AppendOut.ok o1 = AppendOut.ok o := congrArg Prod.fst h
      cases h1
      have h2 : ({ p with active := a1 } : Partition) = p' := congrArg Prod.snd h
      subst ho
      constructor
      · rfl
      · rw [← h2]
        show a1.nextOffset = _
        rw [hnext, decode_recordsCount hdec, recordsCountOf_putU64]
    | err e =>
      cases e with
      | segmentFull =>
        have ha1 : a1 = p.active := segmentAppend_err hsa
        subst ha1
        simp only [] at h
        rw [newSegmentFresh_eq] at h
        simp only [] at h
        rcases hra : segmentAppend
            { baseOffset := p.active.nextOffset, nextOffset := p.active.nextOffset
              log := { data := List.replicate p.cfg.segmentMaxBytes.toNat 0, size := 0 }
              index := { cap := p.cfg.indexMaxBytes.toNat, entries := [] }
              cfg := p.cfg }
            (putU64 b p.active.nextOffset) with ⟨r2, a2⟩
        rw [hra] at h
        have h1 := congrArg Prod.fst h
        have h2 := congrArg Prod.snd h
        simp only [] at h1 h2
        cases r2 with
        | panik => exact AppendOut.noConfusion h1
        | err e2 => exact AppendOut.noConfusion h1
        | ok o2 =>
          obtain ⟨batch, hdec, ho, hnext⟩ := segmentAppend_ok hra
          have ho2 : o2 = o := by cases h1; rfl
          subst ho2
          rw [ho]
          constructor
          · rfl
          · rw [← h2]
            show a2.nextOffset = _
            rw [hnext, decode_recordsCount hdec, recordsCountOf_putU64]
      | decode e2 => exact AppendOut.noConfusion (congrArg Prod.fst h)
      | createFail => exact AppendOut.noConfusion (congrArg Prod.fst h)
      | invalidBatchLength => exact AppendOut.noConfusion (congrArg Prod.fst h)
  · rw [if_neg hlen] at h
    exact AppendOut.noConfusion (congrArg Prod.fst h)

/-- `NewPartition` on an empty directory always succeeds, with segment list
`[0]` and an empty active segment whose next offset is 0. -/
lemma freshPartition_eq (cfg : Config) :
    freshPartition cfg = some
      { segments := [0]
        active :=
          { baseOffset := 0, nextOffset := 0
            log := { data := List.replicate cfg.segmentMaxBytes.toNat 0, size := 0 }
            index := { cap := cfg.indexMaxBytes.toNat, entries := [] }
            cfg := cfg }
        cfg := cfg } := by
  unfold freshPartition
  rw [newSegmentFresh_eq]

/-- Offsets returned by a fully successful append sequence follow the
`offsetsSpec` recurrence from the active segment's current next offset. -/
lemma appendMany_offsets (bs : List (List Nat)) :
    ∀ (p p' : Partition) (outs : List AppendOut),
      appendMany p bs = (outs, p') →
      (∀ r ∈ outs, ∃ oo, r = AppendOut.ok oo) →
      outs = (offsetsSpec p.active.nextOffset bs).map AppendOut.ok := by
  induction bs with
  | nil =>
    intro p p' outs h _
    unfold appendMany at h
    cases h
    rfl
  | cons b bs ih =>
    intro p p' outs h hok
    unfold appendMany at h
    rcases h1 : partitionAppend p b with ⟨r, p1⟩
    rw [h1] at h
    simp only [] at h
    rcases h2 : appendMany p1 bs with ⟨rs, p2⟩
    rw [h2] at h
    simp only [] at h
    have houts : outs = r :: rs := (congrArg Prod.fst h).symm
    subst houts
    obtain ⟨o, ho⟩ := hok r (by simp)
    subst ho
    obtain ⟨hoff, hnext⟩ := partitionAppend_ok h1
    subst hoff
    rw [offsetsSpec]
    have hrs := ih p1 p2 rs h2 (fun r hr => hok r (by simp [hr]))
    rw [hnext] at hrs
    rw [List.map_cons, ← hrs]

/-- Appending one whole decodable batch to a valid batch sequence keeps it
valid. -/
lemma ValidBatchSeq.append_batch {A B : List Nat} {b : RecordBatch}
    (hA : ValidBatchSeq A) (hB : decodeBatch B = .ok b)
    (hlen : B.length = (12 + toInt32 (u32At B 8)).toNat) :
    ValidBatchSeq (A ++ B) := by
  induction hA with
  | nil =>
    have := ValidBatchSeq.cons B [] b hB hlen .nil
    rwa [List.append_nil] at this
  | cons B0 rest b0 h0 hlen0 hrest ih =>
    rw [List.append_assoc]
    exact ValidBatchSeq.cons B0 (rest ++ B) b0 h0 hlen0 ih

/-- The recovery scan's central invariant: whenever the loop returns
normally, the bytes before the final position form a valid batch sequence,
provided the bytes before the starting position already did.  Each
non-terminal iteration consumes exactly one CRC-verified batch of its
declared size. -/
lemma recoverLoop_valid (cfg : Config) (base : Int) (log : Log)
    (hsz : log.size = log.data.length) :
    ∀ (fuel : Nat) (st st' : ScanState),
      recoverLoop cfg base log fuel st = some st' →
      ValidBatchSeq (log.data.take st.pos) →
      ValidBatchSeq (log.data.take st'.pos) := by
  intro fuel
  induction fuel with
  | zero =>
    intro st st' h _
    exact Option.noConfusion h
  | succ fuel ih =>
    intro st st' h hv
    rw [recoverLoop] at h
    by_cases h1 : st.pos < log.data.length
    case neg =>
      rw [if_neg h1] at h
      cases h
      exact hv
    case pos =>
      rw [if_pos h1] at h
      cases hr : readRaw log st.pos 12 with
      | panik => rw [hr] at h; exact Option.noConfusion h
      | nilSlice => rw [hr] at h; cases h; exact hv
      | bytes headerBuf =>
        rw [hr] at h
        simp only [] at h
        by_cases h2 : headerBuf.length < 12
        · rw [if_pos h2] at h; cases h; exact hv
        · rw [if_neg h2] at h
          by_cases h3 : toInt32 (beNat ((headerBuf.drop 8).take 4)) = 0
          · rw [if_pos h3] at h; cases h; exact hv
          · rw [if_neg h3] at h
            cases hr2 : readRaw log st.pos
                (12 + toInt32 (beNat ((headerBuf.drop 8).take 4))) with
            | panik => rw [hr2] at h; exact Option.noConfusion h
            | nilSlice => rw [hr2] at h; cases h; exact hv
            | bytes batchData =>
              rw [hr2] at h
              simp only [] at h
              cases hd : decodeBatch batchData with
              | panik => rw [hd] at h; exact Option.noConfusion h
              | error e => rw [hd] at h; cases h; exact hv
              | ok batch =>
                rw [hd] at h
                simp only [] at h
                -- facts about the second raw read
                unfold readRaw at hr2
                by_cases hb1 : (st.pos : Int) +
                    (12 + toInt32 (beNat ((headerBuf.drop 8).take 4))) > (log.size : Int)
                · rw [if_pos hb1] at hr2; exact RawRead.noConfusion hr2
                · rw [if_neg hb1] at hr2
                  by_cases hb2 : (12 + toInt32 (beNat ((headerBuf.drop 8).take 4)) : Int) < 0
                  · rw [if_pos hb2] at hr2; exact RawRead.noConfusion hr2
                  · rw [if_neg hb2] at hr2
                    have hbd : batchData = (log.data.drop st.pos).take
                        (12 + toInt32 (beNat ((headerBuf.drop 8).take 4))).toNat := by
                      have := RawRead.bytes.inj hr2
                      exact this.symm
                    -- facts about the first raw read
                    unfold readRaw at hr
                    by_cases ha1 : (st.pos : Int) + 12 > (log.size : Int)
                    · rw [if_pos ha1] at hr; exact RawRead.noConfusion hr
                    · rw [if_neg ha1] at hr
                      rw [if_neg (by norm_num)] at hr
                      have hhb : headerBuf = (log.data.drop st.pos).take (12 : Int).toNat :=
                        (RawRead.bytes.inj hr).symm
                      -- abbreviations
                      set T : Int := 12 + toInt32 (beNat ((headerBuf.drop 8).take 4)) with hT
                      have hT0 : 0 ≤ T := by omega
                      have hlenbd : batchData.length = T.toNat := by
                        rw [hbd, List.length_take, List.length_drop]
                        have : (st.pos : Int) + T ≤ (log.data.length : Int) := by
                          rw [← hsz]; omega
                        omega
                      have h61 : 61 ≤ batchData.length := (decodeBatch_ok_elim hd).1
                      -- the declared batch length read inside batchData equals
                      -- the one read from the 12-byte prefix
                      have hsame : u32At batchData 8 = beNat ((headerBuf.drop 8).take 4) := by
                        rw [hbd, hhb]
                        unfold u32At
                        rw [List.drop_take, List.drop_take]
                        rw [List.take_take, List.take_take]
                        congr 2
                        omega
                      have hdecl : batchData.length = (12 + toInt32 (u32At batchData 8)).toNat := by
                        rw [hsame, hlenbd]
                      -- the new prefix is the old one plus this batch
                      have hsplit : log.data.take (st.pos + T.toNat) =
                          log.data.take st.pos ++ batchData := by
                        rw [List.take_add, hbd]
                      -- close by the induction hypothesis
                      have hv' : ValidBatchSeq (log.data.take (st.pos + T.toNat)) := by
                        rw [hsplit]
                        exact ValidBatchSeq.append_batch hv hd hdecl
                      split at h
                      · -- index entry written; on write failure the match in
                        -- `h` returned none
                        split at h
                        · exact Option.noConfusion h
                        · exact ih _ _ h hv'
                      · exact ih _ _ h hv'

/-- Phase 1 only deletes strict front prefixes: the last (active) segment
survives and the result is never empty. -/
lemma phaseTime_last (retMs now : Int) :
    ∀ (segs : List RSeg) (logStart : Int), segs ≠ [] →
      (phaseTime retMs now segs logStart).2.1 ≠ [] ∧
        (phaseTime retMs now segs logStart).2.1.getLast? = segs.getLast? := by
  intro segs
  induction segs with
  | nil => intro logStart h; exact absurd rfl h
  | cons s rest ih =>
    intro logStart _
    cases rest with
    | nil =>
      constructor
      · simp [phaseTime]
      · simp [phaseTime]
    | cons r rs =>
      rw [phaseTime]
      by_cases hc : now - s.largestTs > retMs
      · rw [if_pos hc]
        have := ih (rAdvance (r :: rs) logStart) (by simp)
        simp only []
        rw [List.getLast?_cons_cons]
        exact this
      · rw [if_neg hc]
        exact ⟨by simp, rfl⟩

/-- Phase 2 analogue of `phaseTime_last`. -/
lemma phaseLogStart_last :
    ∀ (segs : List RSeg) (logStart : Int), segs ≠ [] →
      (phaseLogStart segs logStart).2.1 ≠ [] ∧
        (phaseLogStart segs logStart).2.1.getLast? = segs.getLast? := by
  intro segs
  induction segs with
  | nil => intro logStart h; exact absurd rfl h
  | cons s rest ih =>
    intro logStart _
    cases rest with
    | nil =>
      constructor
      · simp [phaseLogStart]
      · simp [phaseLogStart]
    | cons r rs =>
      rw [phaseLogStart]
      by_cases hc : s.next ≤ logStart
      · rw [if_pos hc]
        have := ih (rAdvance (r :: rs) logStart) (by simp)
        simp only []
        rw [List.getLast?_cons_cons]
        exact this
      · rw [if_neg hc]
        exact ⟨by simp, rfl⟩

/-- Phase 3 analogue of `phaseTime_last`. -/
lemma phaseSize_last (retBytes : Int) :
    ∀ (segs : List RSeg) (logStart total : Int), segs ≠ [] →
      (phaseSize retBytes segs logStart total).2.1 ≠ [] ∧
        (phaseSize retBytes segs logStart total).2.1.getLast? = segs.getLast? := by
  intro segs
  induction segs with
  | nil => intro logStart total h; exact absurd rfl h
  | cons s rest ih =>
    intro logStart total _
    cases rest with
    | nil =>
      constructor
      · simp [phaseSize]
      · simp [phaseSize]
    | cons r rs =>
      rw [phaseSize]
      by_cases hc : total > retBytes
      · rw [if_pos hc]
        have := ih (rAdvance (r :: rs) logStart) (total - s.sizeBytes) (by simp)
        simp only []
        rw [List.getLast?_cons_cons]
        exact this
      · rw [if_neg hc]
        exact ⟨by simp, rfl⟩

/-- A single (hence active) segment is never touched by any phase. -/
lemma phaseTime_singleton (retMs now : Int) (s : RSeg) (logStart : Int) :
    phaseTime retMs now [s] logStart = (0, [s], logStart) := by simp [phaseTime]

lemma phaseLogStart_singleton (s : RSeg) (logStart : Int) :
    phaseLogStart [s] logStart = (0, [s], logStart) := by simp [phaseLogStart]

lemma phaseSize_singleton (retBytes : Int) (s : RSeg) (logStart total : Int) :
    phaseSize retBytes [s] logStart total = (0, [s], logStart) := by simp [phaseSize]

/-! ## Claims -/

/-- C1: on a fresh (empty) partition every fully successful sequence of
`Partition.Append` calls is assigned the offsets `offsetsSpec 0`: the first
assigned offset is 0 and each subsequent one is the previous offset plus the
previous batch's `RecordsCount`, so offsets are monotone with no gaps and a
batch returned offset `O` occupies `[O, O + records_count)` — the next
assignment starts exactly at `O + records_count`. -/
theorem C1_append_offsets_gapless (cfg : Config) (bs : List (List Nat))
    (p0 p' : Partition) (outs : List AppendOut)
    (h0 : freshPartition cfg = some p0)
    (h : appendMany p0 bs = (outs, p'))
    (hok : ∀ r ∈ outs, ∃ oo, r = AppendOut.ok oo) :
    outs = (offsetsSpec 0 bs).map AppendOut.ok := by
  rw [freshPartition_eq] at h0
  have hp0 := Option.some.inj h0
  subst hp0
  exact appendMany_offsets bs _ p' outs h hok

set_option maxRecDepth 100000 in
/-- Witness for C1 at a concrete input: appending `cBatch` twice to a fresh
partition under `cfg61` (which forces a segment roll on the second append)
returns offsets `[0, 1]`. -/
theorem C1_append_offsets_gapless_witness :
    ([AppendOut.ok 0, AppendOut.ok 1] : List AppendOut) =
      (offsetsSpec 0 [cBatch, cBatch]).map AppendOut.ok :=
  C1_append_offsets_gapless cfg61 [cBatch, cBatch] part0
    (appendMany part0 [cBatch, cBatch]).2 [AppendOut.ok 0, AppendOut.ok 1]
    (by decide)
    (by decide)
    (by
      intro r hr
      rcases List.mem_cons.mp hr with h | h
      · exact ⟨0, h⟩
      · rcases List.mem_cons.mp h with h2 | h2
        · exact ⟨1, h2⟩
        · exact absurd h2 (List.not_mem_nil r))

/-- C2: whatever the initial on-disk content of the segment's log file (and
whatever the on-disk index held — the freshly opened index has size 0, so
its content is irrelevant), when `NewSegment`'s recovery completes, every
byte in `[0, log.logical_size)` parses as a contiguous sequence of
well-formed, CRC-valid batches, each occupying exactly its declared
`12 + BatchLength` bytes. -/
theorem C2_recovery_prefix_valid (base : Int) (cfg : Config) (disk : List Nat)
    (s : Segment) (h : newSegmentFromDisk base cfg disk = .ok s) :
    ValidBatchSeq (s.log.data.take s.log.size) := by
  unfold newSegmentFromDisk recover at h
  have hlast : indexLastEntry (freshIndex cfg.indexMaxBytes) = (0, 0) := rfl
  rw [hlast] at h
  simp only [] at h
  rw [if_neg (by norm_num)] at h
  cases hloop : recoverLoop cfg base
      { data := (logFromDisk cfg.segmentMaxBytes disk).data
        size := (logFromDisk cfg.segmentMaxBytes disk).data.length }
      ((logFromDisk cfg.segmentMaxBytes disk).data.length + 1)
      { pos := 0, lastIndexedPos := -1, lastNextOffset := base
        index := { cap := (freshIndex cfg.indexMaxBytes).cap, entries := [] } } with
  | none => rw [hloop] at h; exact RecOut.noConfusion h
  | some st =>
    rw [hloop] at h
    simp only [] at h
    have hs := RecOut.ok.inj h
    subst hs
    have hv0 : ValidBatchSeq
        (((logFromDisk cfg.segmentMaxBytes disk).data).take 0) := by
      rw [List.take_zero]
      exact .nil
    exact recoverLoop_valid cfg base
      { data := (logFromDisk cfg.segmentMaxBytes disk).data
        size := (logFromDisk cfg.segmentMaxBytes disk).data.length }
      rfl _ _ st hloop hv0

set_option maxRecDepth 100000 in
/-- Witness for C2: recovering from a log file holding one valid batch
followed by three garbage bytes truncates the logical size to 61 and the
recovered prefix is a valid batch sequence. -/
theorem C2_recovery_prefix_valid_witness :
    ValidBatchSeq (cRecSeg.log.data.take cRecSeg.log.size) :=
  C2_recovery_prefix_valid 0 cfgRec cRecDisk cRecSeg (by decide)

set_option maxRecDepth 100000 in
/-- C3: evaluation at the failing input.  `part1` is a fresh partition under
`cfg61` after one append (next offset 1, log full).  Appending `cBatch`
again returns `SegmentFull` from the active segment, and the partition
rolls: the retried append succeeds with offset 1 and the new active
segment's base offset is the captured `roll_base = 1` — but the metadata
list `Segments` still reads `[0]`: the code never appends the new base
offset to it, although the claim (and partition.go's own comment that
`Segments` stores the base offsets of all segments) says it must. -/
theorem C3_roll_does_not_update_segment_list :
    (partitionAppend part1 cBatch).1 = .ok 1 ∧
      (partitionAppend part1 cBatch).2.active.baseOffset = 1 ∧
      (partitionAppend part1 cBatch).2.segments = [0] := by
  refine ⟨by decide, by decide, by decide⟩

set_option maxRecDepth 100000 in
/-- C4, counterexample: `part1` is a non-empty partition whose next offset
is `N = 1`; the claim says `Partition.Read(N + 1, m)` returns
`OffsetOutOfRange`, but the code returns `(nil, nil)` — the same empty
result as reading `N` — because every target `≥ NextOffset` takes the EOF
branch. -/
theorem C4_read_beyond_next_returns_empty :
    partitionRead part1 2 1024 = .oknil ∧ ReadOut.oknil ≠ ReadOut.oor := by
  refine ⟨by decide, by decide⟩

/-- C4, amended: for a non-empty partition whose first stored base offset
does not exceed the next offset `N`, both `read(N, m)` and `read(N + 1, m)`
return the empty result with no error; no target at or beyond `N` is an
error. -/
theorem C4_read_at_or_beyond_next_empty (p : Partition) (m : Int)
    (hne : p.segments ≠ [])
    (hfirst : p.segments.headD 0 ≤ p.active.nextOffset) :
    partitionRead p p.active.nextOffset m = .oknil ∧
      partitionRead p (p.active.nextOffset + 1) m = .oknil := by
  have hlen : ¬ (p.segments.length = 0) := by
    simpa [List.length_eq_zero] using hne
  constructor
  · unfold partitionRead
    rw [if_neg hlen, if_neg (by omega), if_pos (by omega)]
  · unfold partitionRead
    rw [if_neg hlen, if_neg (by omega), if_pos (by omega)]

set_option maxRecDepth 100000 in
/-- Witness for the amended C4 at `part1` (`N = 1`). -/
theorem C4_read_at_or_beyond_next_empty_witness :
    partitionRead part1 part1.active.nextOffset 1024 = .oknil ∧
      partitionRead part1 (part1.active.nextOffset + 1) 1024 = .oknil :=
  C4_read_at_or_beyond_next_empty part1 1024 (by decide) (by decide)

set_option maxRecDepth 100000 in
/-- C5, counterexample: `cBatch ++ [0]` satisfies every condition of the
claim — length ≥ 61, length ≥ 12 + BatchLength, magic 2, and CRC-32C over
exactly `[21, 12+BatchLength)` (bytes 21..61) equal to the stored CRC — yet
`DecodeBatch` rejects it with a CRC mismatch, because the code checksums
`data[21:]` to the END of the buffer, trailing bytes included. -/
theorem C5_decode_rejects_trailing_bytes :
    (61 ≤ (cBatch ++ [0]).length ∧
      toInt32 (u32At (cBatch ++ [0]) 8) + 12 ≤ (((cBatch ++ [0]).length : Nat) : Int) ∧
      toInt8 (byteAt (cBatch ++ [0]) 16) = 2 ∧
      crc32c (((cBatch ++ [0]).drop 21).take 40) = u32At (cBatch ++ [0]) 17) ∧
      decodeBatch (cBatch ++ [0]) = .error .crcMismatch := by
  refine ⟨⟨by decide, by decide, by decide, by decide⟩, by decide⟩

/-- C5, amended: `decode_batch(bytes)` succeeds exactly when
`len(bytes) ≥ 61`, `len(bytes) ≥ 12 + BatchLength`, `Magic == 2`,
`BatchLength ≥ 49`, and CRC-32C computed over `bytes[21 .. len)` — to the
end of the buffer, not `[21, 12+BatchLength)` — equals the stored CRC; on
success it returns the parsed header and the zero-copy payload slice
`bytes[61 .. 12+BatchLength)`.  (With `BatchLength < 49` and all other
checks passing, the code panics instead of succeeding.) -/
theorem C5_decode_success_characterization (data : List Nat) :
    ((∃ b, decodeBatch data = .ok b) ↔
      (61 ≤ data.length ∧
        toInt32 (u32At data 8) + 12 ≤ (data.length : Int) ∧
        toInt8 (byteAt data 16) = 2 ∧
        crc32c (data.drop 21) = u32At data 17 ∧
        49 ≤ toInt32 (u32At data 8))) ∧
    (∀ b, decodeBatch data = .ok b →
      b.header = parsedHeader data ∧
        b.payload = (data.take (12 + toInt32 (u32At data 8)).toNat).drop 61) := by
  constructor
  · constructor
    · rintro ⟨b, hb⟩
      have := (decodeBatch_ok_iff data b).mp hb
      exact ⟨this.1, this.2.1, this.2.2.1, this.2.2.2.1, this.2.2.2.2.1⟩
    · rintro ⟨h1, h2, h3, h4, h5⟩
      exact ⟨parsedBatch data, (decodeBatch_ok_iff data (parsedBatch data)).mpr
        ⟨h1, h2, h3, h4, h5, rfl⟩⟩
  · intro b hb
    rw [(decodeBatch_ok_elim hb).2]
    exact ⟨rfl, rfl⟩

set_option maxRecDepth 100000 in
/-- Witness for the amended C5: the characterization accepts `cBatch`. -/
theorem C5_decode_success_characterization_witness :
    ∃ b, decodeBatch cBatch = DecodeResult.ok b :=
  (C5_decode_success_characterization cBatch).1.mpr
    ⟨by decide, by decide, by decide, by decide, by decide⟩

set_option maxRecDepth 100000 in
/-- C6: evaluation at the failing input.  `cShortBatch` is a 61-byte buffer
with `BatchLength = 0`, magic 2 and a CRC field equal to the CRC-32C of its
bytes 21..61: every check in `DecodeBatch` passes and the Go code then
takes the inverted slice `data[61:12]`, a runtime panic — the claim (and
the spec's "the core itself never panics on malformed input") says decoding
must return a value or an error for every input. -/
theorem C6_decode_panics_on_short_batch_length :
    decodeBatch cShortBatch = .panik := by decide

/-- C7: overwriting the first 8 bytes (BaseOffset) of any successfully
decoding batch with any value — exactly the in-place rewrite
`Partition.Append` performs — still decodes successfully (the CRC verdict
is unchanged, since the checksummed range starts at byte 21), and the
decoded result differs from the original only in the `BaseOffset` header
field. -/
theorem C7_base_offset_rewrite_safe (data : List Nat) (v : Int) (b : RecordBatch)
    (h : decodeBatch data = .ok b) :
    decodeBatch (putU64 data v) =
      .ok { header := { b.header with baseOffset := toInt64 (u64bits v) }
            payload := b.payload } := by
  obtain ⟨h1, h2, h3, h4, h5, hb⟩ := (decodeBatch_ok_iff data b).mp h
  have hlen8 : (8 : Nat) ≤ data.length := by omega
  have hP : parsedBatch (putU64 data v) =
      { header := { parsedHeader data with baseOffset := toInt64 (u64bits v) }
        payload := (parsedBatch data).payload } := by
    unfold parsedBatch parsedHeader
    rw [u64At_putU64_zero,
      u32At_putU64 (by omega), u32At_putU64 (by omega), byteAt_putU64 (by omega),
      u32At_putU64 (by omega), u16At_putU64 (by omega), u32At_putU64 (by omega),
      u64At_putU64 (by omega), u64At_putU64 (by omega), u64At_putU64 (by omega),
      u16At_putU64 (by omega), u32At_putU64 (by omega), u32At_putU64 (by omega)]
    simp only []
    rw [List.drop_take, List.drop_take, putU64_drop (by omega)]
  apply (decodeBatch_ok_iff (putU64 data v) _).mpr
  refine ⟨?_, ?_, ?_, ?_, ?_, ?_⟩
  · rw [putU64_length data v hlen8]; exact h1
  · rw [putU64_length data v hlen8, u32At_putU64 (by omega)]; exact h2
  · rw [byteAt_putU64 (by omega)]; exact h3
  · rw [putU64_drop (by omega), u32At_putU64 (by omega)]; exact h4
  · rw [u32At_putU64 (by omega)]; exact h5
  · rw [hP, hb]; rfl

set_option maxRecDepth 100000 in
/-- Witness for C7: rewriting `cBatch`'s base offset to 5 still decodes,
with only the `BaseOffset` field changed. -/
theorem C7_base_offset_rewrite_safe_witness :
    decodeBatch (putU64 cBatch 5) =
      .ok { header := { cHeader with baseOffset := toInt64 (u64bits 5) }
            payload := [] } :=
  C7_base_offset_rewrite_safe cBatch 5 { header := cHeader, payload := [] } (by decide)

set_option maxRecDepth 100000 in
/-- C8, counterexample: under `IndexIntervalBytes = 0` the first batch
appended to a fresh segment is NOT written to the index — the whole
indexing block is guarded by `IndexIntervalBytes > 0` — although the claim
says the first batch is still indexed. -/
theorem C8_interval_zero_skips_first_batch :
    (segmentAppend segNoIdx cBatch).1 = .ok 0 ∧
      (segmentAppend segNoIdx cBatch).2.index.entries = [] := by
  refine ⟨by decide, by decide⟩

/-- C8, amended: when `IndexIntervalBytes > 0` (and the index file has room
for an entry), the first batch successfully appended to a fresh segment is
always indexed; when `IndexIntervalBytes = 0`, no index entry is written at
all, not even for the first batch. -/
theorem C8_first_batch_indexed_when_interval_positive
    (s s' : Segment) (b : List Nat) (off : Int)
    (hsize : s.log.size = 0) (hidx : s.index.entries = [])
    (hint : 0 < s.cfg.indexIntervalBytes) (hcap : 8 ≤ s.index.cap)
    (h : segmentAppend s b = (.ok off, s')) :
    s'.index.entries.length = 1 := by
  unfold segmentAppend at h
  cases hd : decodeBatch b with
  | panik => rw [hd] at h; exact AppendOut.noConfusion (congrArg Prod.fst h)
  | error e => rw [hd] at h; exact AppendOut.noConfusion (congrArg Prod.fst h)
  | ok batch =>
    rw [hd] at h
    cases hl : logAppend s.log b with
    | mk out log' =>
      rw [hl] at h
      cases out with
      | full => exact AppendOut.noConfusion (congrArg Prod.fst h)
      | ok n pos =>
        -- the successful log append wrote at position 0 with n = b.length,
        -- so the first-batch condition log'.size = n holds
        have hbl : 61 ≤ b.length := (decodeBatch_ok_elim hd).1
        unfold logAppend at hl
        by_cases hfull : s.log.size + b.length > s.log.data.length
        · rw [if_pos hfull] at hl
          exact LogAppendOut.noConfusion (congrArg Prod.fst hl)
        · rw [if_neg hfull] at hl
          have hn : n = b.length := by
            have := congrArg Prod.fst hl
            simp only [] at this
            exact (LogAppendOut.ok.inj this).1.symm
          have hlog' : log'.size = s.log.size + b.length := by
            have := congrArg Prod.snd hl
            simp only [] at this
            rw [← this]
          simp only [] at h
          rw [if_pos (show n > 0 ∧ s.cfg.indexIntervalBytes > 0 from ⟨by omega, hint⟩)] at h
          rw [if_pos (Or.inl (show log'.size = n by omega))] at h
          have hw : indexWrite s.index (batch.header.baseOffset - s.baseOffset) (pos : Int) =
              .ok { s.index with
                entries := s.index.entries ++
                  [(u32bits (batch.header.baseOffset - s.baseOffset), u32bits (pos : Int))] } := by
            unfold indexWrite
            rw [if_neg (by rw [hidx]; simp; omega)]
          rw [hw] at h
          have h2 := congrArg Prod.snd h
          simp only [] at h2
          rw [← h2]
          show (s.index.entries ++ _).length = 1
          rw [hidx]
          rfl

set_option maxRecDepth 100000 in
/-- Witness for the amended C8: the first append into `part0`'s fresh active
segment (interval 4096 > 0) writes exactly one index entry. -/
theorem C8_first_batch_indexed_when_interval_positive_witness :
    ((segmentAppend part0.active cBatch).2).index.entries.length = 1 :=
  C8_first_batch_indexed_when_interval_positive part0.active
    (segmentAppend part0.active cBatch).2 cBatch 0
    (by decide) (by decide) (by decide) (by decide) (by decide)

/-- C9 (spec-modelled): a retention pass — `DeleteOldSegments` as the
cleaner invokes it on each registered partition — never deletes the active
(last) segment, under every combination of `RetentionMs`, `RetentionBytes`,
`now` and `log_start_offset`: the remaining list is never empty and its last
element is the original last element; and when only the active segment
remains, the pass deletes nothing and leaves the list unchanged. -/
theorem C9_retention_never_deletes_active (cfg : RetCfg) (now : Int)
    (segs : List RSeg) (logStart : Int) (h : segs ≠ []) :
    ((deleteOldSegments cfg now segs logStart).2.1 ≠ [] ∧
      (deleteOldSegments cfg now segs logStart).2.1.getLast? = segs.getLast?) ∧
      (segs.length = 1 →
        (deleteOldSegments cfg now segs logStart).1 = 0 ∧
          (deleteOldSegments cfg now segs logStart).2.1 = segs) := by
  unfold deleteOldSegments
  simp only []
  rcases hs1 : (if cfg.retentionMs > 0 then phaseTime cfg.retentionMs now segs logStart
      else (0, segs, logStart)) with ⟨k1, segs1, ls1⟩
  have hseg1 : segs1 ≠ [] ∧ segs1.getLast? = segs.getLast? := by
    by_cases hrm : cfg.retentionMs > 0
    · rw [if_pos hrm] at hs1
      have := phaseTime_last cfg.retentionMs now segs logStart h
      rw [hs1] at this
      exact this
    · rw [if_neg hrm] at hs1
      cases hs1
      exact ⟨h, rfl⟩
  rcases hs2 : phaseLogStart segs1 ls1 with ⟨k2, segs2, ls2⟩
  have hseg2 : segs2 ≠ [] ∧ segs2.getLast? = segs1.getLast? := by
    have := phaseLogStart_last segs1 ls1 hseg1.1
    rw [hs2] at this
    exact this
  rcases hs3 : (if cfg.retentionBytes ≥ 0 then
      phaseSize cfg.retentionBytes segs2 ls2 ((segs2.map RSeg.sizeBytes).sum)
      else (0, segs2, ls2)) with ⟨k3, segs3, ls3⟩
  have hseg3 : segs3 ≠ [] ∧ segs3.getLast? = segs2.getLast? := by
    by_cases hrb : cfg.retentionBytes ≥ 0
    · rw [if_pos hrb] at hs3
      have := phaseSize_last cfg.retentionBytes segs2 ls2
        ((segs2.map RSeg.sizeBytes).sum) hseg2.1
      rw [hs3] at this
      exact this
    · rw [if_neg hrb] at hs3
      cases hs3
      exact ⟨hseg2.1, rfl⟩
  refine ⟨⟨hseg3.1, by rw [hseg3.2, hseg2.2, hseg1.2]⟩, ?_⟩
  intro hone
  obtain ⟨s0, rfl⟩ := List.length_eq_one.mp hone
  have e1 : ((k1, segs1, ls1) : Nat × List RSeg × Int) = (0, [s0], logStart) := by
    rw [← hs1]
    by_cases hrm : cfg.retentionMs > 0
    · rw [if_pos hrm, phaseTime_singleton]
    · rw [if_neg hrm]
  have ek1 : k1 = 0 := congrArg Prod.fst e1
  have es1 : segs1 = [s0] := congrArg (fun x => x.2.1) e1
  rw [es1] at hs2
  have e2 : ((k2, segs2, ls2) : Nat × List RSeg × Int) = (0, [s0], ls1) := by
    rw [← hs2, phaseLogStart_singleton]
  have ek2 : k2 = 0 := congrArg Prod.fst e2
  have es2 : segs2 = [s0] := congrArg (fun x => x.2.1) e2
  rw [es2] at hs3
  have e3 : ((k3, segs3, ls3) : Nat × List RSeg × Int) = (0, [s0], ls2) := by
    rw [← hs3]
    by_cases hrb : cfg.retentionBytes ≥ 0
    · rw [if_pos hrb, phaseSize_singleton]
    · rw [if_neg hrb]
  have ek3 : k3 = 0 := congrArg Prod.fst e3
  have es3 : segs3 = [s0] := congrArg (fun x => x.2.1) e3
  constructor
  · simp [ek1, ek2, ek3]
  · exact es3

/-- Witness for C9 at a concrete three-segment partition with aggressive
time and size retention. -/
theorem C9_retention_never_deletes_active_witness :
    (((deleteOldSegments { retentionMs := 100, retentionBytes := 150 } 1000
        cRSegs 0).2.1 ≠ [] ∧
      (deleteOldSegments { retentionMs := 100, retentionBytes := 150 } 1000
        cRSegs 0).2.1.getLast? = cRSegs.getLast?) ∧
      (cRSegs.length = 1 →
        (deleteOldSegments { retentionMs := 100, retentionBytes := 150 } 1000
          cRSegs 0).1 = 0 ∧
          (deleteOldSegments { retentionMs := 100, retentionBytes := 150 } 1000
            cRSegs 0).2.1 = cRSegs)) :=
  C9_retention_never_deletes_active { retentionMs := 100, retentionBytes := 150 }
    1000 cRSegs 0 (by decide)

/-- C10: when `Log.Append` would return `SegmentFull` (the batch decoded
but `logical_size + len(bytes)` exceeds the mapped length), the log's
logical size and stored bytes are unchanged — the failing `Log.Append`
returns the log untouched — and the enclosing `Segment.Append` returns
`SegmentFull` with the whole segment state (NextOffset, log and index)
exactly as before the call. -/
theorem C10_segment_full_is_pure (s : Segment) (b : List Nat) (batch : RecordBatch)
    (hdec : decodeBatch b = .ok batch)
    (hfull : (logAppend s.log b).1 = .full) :
    segmentAppend s b = (.err .segmentFull, s) ∧ (logAppend s.log b).2 = s.log := by
  have hcond : s.log.size + b.length > s.log.data.length := by
    by_contra hc
    unfold logAppend at hfull
    rw [if_neg hc] at hfull
    exact LogAppendOut.noConfusion hfull
  have hla : logAppend s.log b = (.full, s.log) := by
    unfold logAppend
    rw [if_pos hcond]
  constructor
  · unfold segmentAppend
    rw [hdec, hla]
  · rw [hla]

set_option maxRecDepth 100000 in
/-- Witness for C10: `part1`'s active segment (its 61-byte log is full)
rejects a further `cBatch` append without any state change. -/
theorem C10_segment_full_is_pure_witness :
    segmentAppend part1.active cBatch = (.err .segmentFull, part1.active) ∧
      (logAppend part1.active.log cBatch).2 = part1.active.log :=
  C10_segment_full_is_pure part1.active cBatch
    { header := cHeader, payload := [] } (by decide) (by decide)
